import Mathlib

/-!
Verification development for the IncidentResponseOrchestrator repository
(services/ai-agent). The Python sources are shallowly embedded as
executable Lean definitions:

* `src/llm/rate_limiter.py`  → `SmartRateLimiter` state and transitions,
* `src/llm/llm_provider.py`  → the `_call_with_retry` backoff loop,
* `src/agent/agent.py`       → JSON extraction, command whitelisting,
  dedup cache, decision parsing and the `analyze` pipeline.

Text is modelled as `List Char`; wall-clock instants and float amounts as
rationals; Python exceptions as `Except`; Python `None`-able floats as
`Option ℚ` (with the truthiness of `0.0` modelled explicitly).
-/

set_option maxRecDepth 40000

namespace IRO

/-- Text of the embedded program, as a list of characters. -/
abbrev Str := List Char

/-- Whitespace as recognised by Python `str.strip` and by regex `\s`
(ASCII range; the exotic unicode whitespace characters never occur in the
inputs the program manipulates). -/
def isPySpace (c : Char) : Bool :=
  c = ' ' || c = '\t' || c = '\n' || c = '\r' || c = '\x0b' || c = '\x0c'

/-- Python `str.strip()`. -/
def pyStrip (s : Str) : Str :=
  ((s.dropWhile isPySpace).reverse.dropWhile isPySpace).reverse

/-- Truthiness of an optional float (Python `if x:` on a float-or-None
field): `None` and `0.0` are falsy. -/
def truthyOptRat : Option ℚ → Bool
  | none => false
  | some x => decide (x ≠ 0)

/-! ## Rate limiter (`src/llm/rate_limiter.py`, class `SmartRateLimiter`) -/

/-- Constructor-time configuration of `SmartRateLimiter`
(`requests_per_minute`, `enabled`; the repository never passes
`burst_size`, so capacity is the `max(1, int(requests_per_minute))`
default). -/
structure RLConfig where
  rpm : ℚ
  enabled : Bool

/-- Python `int()` truncation toward zero on a float. -/
def pyInt (q : ℚ) : ℤ := if 0 ≤ q then ⌊q⌋ else ⌈q⌉

/-- `self.max_tokens = max(1, int(requests_per_minute))`. -/
def RLConfig.maxTokens (c : RLConfig) : ℚ := max 1 ((pyInt c.rpm : ℤ) : ℚ)

/-- `self.tokens_per_second = requests_per_minute / 60.0`. -/
def RLConfig.tokensPerSecond (c : RLConfig) : ℚ := c.rpm / 60

/-- `RateLimitState` dataclass. -/
structure RLState where
  tokens : ℚ
  last_refill : ℚ
  retry_after : Option ℚ
  retry_after_until : Option ℚ
deriving DecidableEq

/-- State built in `SmartRateLimiter.__init__` at monotonic instant `t0`. -/
def RLState.init (c : RLConfig) (t0 : ℚ) : RLState :=
  { tokens := c.maxTokens, last_refill := t0
    retry_after := none, retry_after_until := none }

/-- Refill-and-consume part of `_try_acquire` (runs when no forced
cooldown window is active). Returns the new state and the wait time
(`0` means a token was consumed). -/
def tryAcquireRefill (c : RLConfig) (st : RLState) (now : ℚ) : RLState × ℚ :=
  let elapsed := now - st.last_refill
  let toks := min c.maxTokens (st.tokens + elapsed * c.tokensPerSecond)
  let st1 : RLState := { st with tokens := toks, last_refill := now }
  if 1 ≤ toks then ({ st1 with tokens := toks - 1 }, 0)
  else (st1, (1 - toks) / c.tokensPerSecond)

/-- `SmartRateLimiter._try_acquire`: the forced-cooldown check
`if self._state.retry_after_until and now < self._state.retry_after_until`
(Python float truthiness included) takes precedence over the bucket. -/
def tryAcquire (c : RLConfig) (st : RLState) (now : ℚ) : RLState × ℚ :=
  if truthyOptRat st.retry_after_until ∧
      now < st.retry_after_until.getD 0 then
    (st, st.retry_after_until.getD 0 - now)
  else tryAcquireRefill c st now

/-- `SmartRateLimiter.report_rate_limit_error`: `if retry_after:` picks the
hint when truthy, else the 60s default; sets the cooldown window and
drains the tokens to zero. -/
def reportRateLimitError (c : RLConfig) (st : RLState) (now : ℚ)
    (hint : Option ℚ) : RLState :=
  if c.enabled then
    let wait : ℚ := match hint with
      | some h => if h ≠ 0 then h else 60
      | none => 60
    { st with retry_after := some wait
              retry_after_until := some (now + wait)
              tokens := 0 }
  else st

/-- `SmartRateLimiter.update_from_headers`, with the header resolution
already performed: `ra` is the resolved retry-after amount (or `none`).
Only `if retry_after and retry_after > 0:` mutates state. -/
def updateFromHeaders (c : RLConfig) (st : RLState) (now : ℚ)
    (ra : Option ℚ) : RLState :=
  if c.enabled then
    match ra with
    | some r =>
      if r ≠ 0 ∧ 0 < r then
        { st with retry_after := some r, retry_after_until := some (now + r) }
      else st
    | none => st
  else st

/-- The `available_tokens` property: computes the refilled count under the
lock and returns it; the body contains no field assignment, so the state
component of the result is the input state. -/
def availableTokens (c : RLConfig) (st : RLState) (now : ℚ) : RLState × ℚ :=
  (st, min c.maxTokens (st.tokens + (now - st.last_refill) * c.tokensPerSecond))

/-- States of one limiter instance reachable through its public mutators. -/
inductive Reachable (c : RLConfig) : RLState → Prop where
  | init (t0 : ℚ) : Reachable c (RLState.init c t0)
  | step_acquire (st : RLState) (now : ℚ) :
      Reachable c st → Reachable c (tryAcquire c st now).1
  | step_report (st : RLState) (now : ℚ) (hint : Option ℚ) :
      Reachable c st → Reachable c (reportRateLimitError c st now hint)
  | step_headers (st : RLState) (now : ℚ) (ra : Option ℚ) :
      Reachable c st → Reachable c (updateFromHeaders c st now ra)

/-- `acquire` attempts repeated back-to-back at one instant (elapsed time
zero), collecting each attempt's wait time. -/
def acquireSeq (c : RLConfig) (now : ℚ) : RLState → ℕ → RLState × List ℚ
  | st, 0 => (st, [])
  | st, n + 1 =>
    let p := tryAcquire c st now
    let q := acquireSeq c now p.1 n
    (q.1, p.2 :: q.2)

/-- Bucket capacity as a natural number (well-defined once `0 < rpm`). -/
def burstN (c : RLConfig) : ℕ := (max 1 (pyInt c.rpm)).toNat

/-! ## Retrying API client (`src/llm/llm_provider.py`, `_call_with_retry`) -/

/-- Outcome of one underlying `completion(...)` call, as classified by
the `except` clauses of `_call_with_retry`: success, `RateLimitError`
(carrying the retry-after hint that `_extract_retry_after` recovers, or
`none`), `APIError`/`ServiceUnavailableError`, or any other exception.
`msg` is `str(e)` of the stored exception. -/
inductive LLMOutcome where
  | success (text : Str)
  | rateLimited (hint : Option ℚ) (msg : Str)
  | apiError (msg : Str)
  | otherError (msg : Str)

def LLMOutcome.isSuccess : LLMOutcome → Bool
  | .success _ => true
  | _ => false

def LLMOutcome.errMsg : LLMOutcome → Str
  | .success _ => []
  | .rateLimited _ m => m
  | .apiError m => m
  | .otherError m => m

/-- `retry_after if retry_after else default` (Python float truthiness:
a `0.0` hint falls back to the default). -/
def hintOrDefault (hint : Option ℚ) (d : ℚ) : ℚ :=
  match hint with
  | some h => if h ≠ 0 then h else d
  | none => d

/-- The message of the terminal exception:
`f"LLM call failed after {self.max_retries} attempts: {last_error}"`. -/
def terminalMsg (maxRetries : ℕ) (last : Option Str) : Str :=
  ("LLM call failed after ").data ++ (toString maxRetries).data ++
    (" attempts: ").data ++ last.getD (("None").data)

/-- The `for attempt in range(self.max_retries)` loop of
`_call_with_retry`, from attempt `i` on, with `last` the error stored by
earlier attempts. Returns the call result together with the list of
`time.sleep` amounts performed, in order. The throttled and
transient-service branches sleep unconditionally; the catch-all branch
sleeps only when `attempt < self.max_retries - 1`. -/
def callWithRetryFrom (maxRetries : ℕ) (oc : ℕ → LLMOutcome) :
    ℕ → Option Str → Except Str Str × List ℚ
  | i, last =>
    if h : i < maxRetries then
      match oc i with
      | .success t => (.ok t, [])
      | .rateLimited hint m =>
        let w := min (hintOrDefault hint ((2 : ℚ) ^ i * 10)) 120
        let rest := callWithRetryFrom maxRetries oc (i + 1) (some m)
        (rest.1, w :: rest.2)
      | .apiError m =>
        let w := min ((2 : ℚ) ^ i * 5) 60
        let rest := callWithRetryFrom maxRetries oc (i + 1) (some m)
        (rest.1, w :: rest.2)
      | .otherError m =>
        let rest := callWithRetryFrom maxRetries oc (i + 1) (some m)
        if i < maxRetries - 1 then (rest.1, ((2 : ℚ) ^ i * 2) :: rest.2)
        else (rest.1, rest.2)
    else (.error (terminalMsg maxRetries last), [])
  termination_by i _ => maxRetries - i
  decreasing_by all_goals omega

/-- `LLMProvider._call_with_retry`: run the attempt loop from the start. -/
def callWithRetry (maxRetries : ℕ) (oc : ℕ → LLMOutcome) :
    Except Str Str × List ℚ :=
  callWithRetryFrom maxRetries oc 0 none

/-- Modelled from the spec's backoff table: the sleeps attempt `i`
performs, per failure class — `min(hint or 10·2^i, 120)` when throttled,
`min(5·2^i, 60)` on a transient service error, `2·2^i` (uncapped) on any
other error except on the final attempt, nothing on success. -/
def specAttemptSleeps (maxRetries i : ℕ) : LLMOutcome → List ℚ
  | .success _ => []
  | .rateLimited hint _ => [min (hintOrDefault hint ((2 : ℚ) ^ i * 10)) 120]
  | .apiError _ => [min ((2 : ℚ) ^ i * 5) 60]
  | .otherError _ => if i + 1 < maxRetries then [(2 : ℚ) ^ i * 2] else []

/-- Concatenated spec sleeps of attempts `i, i+1, …, i+n-1`. -/
def specSleepsSeg (maxRetries : ℕ) (oc : ℕ → LLMOutcome) (i n : ℕ) : List ℚ :=
  ((List.range n).map fun j => specAttemptSleeps maxRetries (i + j) (oc (i + j))).flatten

/-! ## JSON values and `json.loads` (Python standard library, as used by
`IncidentAgent._extract_json` and `_parse_decision`) -/

/-- JSON values as `json.loads` produces them: objects are Python dicts,
kept here as association lists built with last-write-wins insertion.
The non-standard `NaN`/`Infinity` extensions of the Python parser are
outside the modelled grammar. -/
inductive Json where
  | null : Json
  | bool (b : Bool) : Json
  | num (q : ℚ) : Json
  | str (s : Str) : Json
  | arr (elems : List Json) : Json
  | obj (fields : List (Str × Json)) : Json

/-- Python dict lookup on the parsed object (`data.get(key)`). -/
def objGet : List (Str × Json) → Str → Option Json
  | [], _ => none
  | (k, v) :: rest, key => if k = key then some v else objGet rest key

/-- Python dict insertion: an existing key keeps its position and gets
  the new value; a new key is appended. -/
def objInsert : List (Str × Json) → Str → Json → List (Str × Json)
  | [], k, v => [(k, v)]
  | (k0, v0) :: rest, k, v =>
    if k0 = k then (k0, v) :: rest else (k0, v0) :: objInsert rest k v

/-- `data.get(key, default)`. -/
def objGetD (fields : List (Str × Json)) (key : Str) (d : Json) : Json :=
  (objGet fields key).getD d

/-- Python truthiness of a JSON value (`if data:`). -/
def Json.truthy : Json → Bool
  | .null => false
  | .bool b => b
  | .num q => decide (q ≠ 0)
  | .str s => !s.isEmpty
  | .arr l => !l.isEmpty
  | .obj o => !o.isEmpty

/-- Whitespace accepted between JSON tokens (the strict JSON set). -/
def isJsonSpace (c : Char) : Bool :=
  c = ' ' || c = '\t' || c = '\n' || c = '\r'

def skipWs (s : Str) : Str := s.dropWhile isJsonSpace

def isDigitCh (c : Char) : Bool := '0' ≤ c && c ≤ '9'

def natOfDigits (l : Str) : ℕ :=
  l.foldl (fun acc c => acc * 10 + (c.toNat - 48)) 0

def pow10 (n : ℕ) : ℚ := (10 : ℚ) ^ n

/-- Exponent suffix of a JSON number: `[eE][+-]?[0-9]+`, or nothing. -/
def parseExp : Str → (Option (Bool × ℕ)) × Str
  | [] => (none, [])
  | s@(e :: rest) =>
    if e = 'e' || e = 'E' then
      let (sign, rest2) : Bool × Str :=
        match rest with
        | '+' :: r => (false, r)
        | '-' :: r => (true, r)
        | _ => (false, rest)
      let ds := rest2.takeWhile isDigitCh
      if ds = [] then (none, s)
      else (some (sign, natOfDigits ds), rest2.dropWhile isDigitCh)
    else (none, s)

/-- JSON number grammar `-?(0|[1-9][0-9]*)(\.[0-9]+)?([eE][+-]?[0-9]+)?`,
returning the value and the unconsumed rest. -/
def parseNumber (s : Str) : Option (ℚ × Str) :=
  let (neg, s1) : Bool × Str :=
    match s with
    | '-' :: rest => (true, rest)
    | _ => (false, s)
  match s1 with
  | [] => none
  | c :: tail =>
    if isDigitCh c then
      let (intDigits, s2) : Str × Str :=
        if c = '0' then ([c], tail)
        else (s1.takeWhile isDigitCh, s1.dropWhile isDigitCh)
      let (fracDigits, s4) : Str × Str :=
        match s2 with
        | '.' :: s3 =>
          let fd := s3.takeWhile isDigitCh
          if fd = [] then ([], s2) else (fd, s3.dropWhile isDigitCh)
        | _ => ([], s2)
      let (expPart, s6) := parseExp s4
      let mantissa : ℚ :=
        (natOfDigits intDigits : ℚ) +
          (natOfDigits fracDigits : ℚ) / pow10 fracDigits.length
      let scaled : ℚ :=
        match expPart with
        | none => mantissa
        | some (expNeg, e) =>
          if expNeg then mantissa / pow10 e else mantissa * pow10 e
      some ((if neg then -scaled else scaled), s6)
    else none

def hexVal (c : Char) : Option ℕ :=
  if isDigitCh c then some (c.toNat - 48)
  else if 'a' ≤ c && c ≤ 'f' then some (c.toNat - 87)
  else if 'A' ≤ c && c ≤ 'F' then some (c.toNat - 55)
  else none

/-- Body of a JSON string after the opening quote: ends at the closing
quote, handles the backslash escapes, rejects raw control characters
(strict mode). Returns the decoded text and the unconsumed rest. -/
def parseStringBody : Str → Option (Str × Str)
  | [] => none
  | '"' :: rest => some ([], rest)
  | '\\' :: esc =>
    match esc with
    | [] => none
    | e :: rest =>
      let simple : Option Char :=
        if e = '"' then some '"'
        else if e = '\\' then some '\\'
        else if e = '/' then some '/'
        else if e = 'b' then some '\x08'
        else if e = 'f' then some '\x0c'
        else if e = 'n' then some '\n'
        else if e = 'r' then some '\r'
        else if e = 't' then some '\t'
        else none
      match simple with
      | some ch => (parseStringBody rest).map fun p => (ch :: p.1, p.2)
      | none =>
        if e = 'u' then
          match rest with
          | h1 :: h2 :: h3 :: h4 :: rest2 =>
            match hexVal h1, hexVal h2, hexVal h3, hexVal h4 with
            | some a, some b, some c, some d =>
              let code := ((a * 16 + b) * 16 + c) * 16 + d
              (parseStringBody rest2).map fun p => (Char.ofNat code :: p.1, p.2)
            | _, _, _, _ => none
          | _ => none
        else none
  | c :: rest =>
    if c.toNat < 32 then none
    else (parseStringBody rest).map fun p => (c :: p.1, p.2)

mutual

/-- One JSON value starting at a non-whitespace position, following the
scanner of `json.loads`; `fuel` only bounds the recursion depth. -/
def parseValue : ℕ → Str → Option (Json × Str)
  | 0, _ => none
  | fuel + 1, s =>
    match s with
    | [] => none
    | c :: rest =>
      if c = '{' then
        match skipWs rest with
        | '}' :: rest2 => some (.obj [], rest2)
        | rest1 => parseMembers fuel rest1 []
      else if c = '[' then
        match skipWs rest with
        | ']' :: rest2 => some (.arr [], rest2)
        | rest1 => parseElems fuel rest1 []
      else if c = '"' then
        (parseStringBody rest).map fun p => (.str p.1, p.2)
      else if c = 't' then
        if rest.take 3 = ("rue").data then some (.bool true, rest.drop 3)
        else none
      else if c = 'f' then
        if rest.take 4 = ("alse").data then some (.bool false, rest.drop 4)
        else none
      else if c = 'n' then
        if rest.take 3 = ("ull").data then some (.null, rest.drop 3)
        else none
      else if c = '-' || isDigitCh c then
        (parseNumber s).map fun p => (.num p.1, p.2)
      else none

/-- Members of an object, starting at the first key (whitespace already
consumed), accumulating into the dict. -/
def parseMembers : ℕ → Str → List (Str × Json) → Option (Json × Str)
  | 0, _, _ => none
  | fuel + 1, s, acc =>
    match s with
    | '"' :: rest =>
      match parseStringBody rest with
      | none => none
      | some (key, rest1) =>
        match skipWs rest1 with
        | ':' :: rest2 =>
          match parseValue fuel (skipWs rest2) with
          | none => none
          | some (v, rest3) =>
            let acc1 := objInsert acc key v
            match skipWs rest3 with
            | ',' :: rest4 => parseMembers fuel (skipWs rest4) acc1
            | '}' :: rest4 => some (.obj acc1, rest4)
            | _ => none
        | _ => none
    | _ => none

/-- Elements of an array, starting at the first element (whitespace
already consumed). -/
def parseElems : ℕ → Str → List Json → Option (Json × Str)
  | 0, _, _ => none
  | fuel + 1, s, acc =>
    match parseValue fuel s with
    | none => none
    | some (v, rest) =>
      match skipWs rest with
      | ',' :: rest2 => parseElems fuel (skipWs rest2) (acc ++ [v])
      | ']' :: rest2 => some (.arr (acc ++ [v]), rest2)
      | _ => none

end

/-- `json.loads`: the whole (whitespace-trimmed) input must be one JSON
value. The fuel `2·|s| + 2` dominates the recursion depth, which grows by
at most two per consumed character. -/
def jsonLoads (s : Str) : Option Json :=
  match parseValue (2 * s.length + 2) (skipWs s) with
  | some (v, rest) => if skipWs rest = [] then some v else none
  | none => none

/-! ## Defensive JSON extraction (`IncidentAgent._extract_json`) -/

def backtick : Char := Char.ofNat 96
def lbrace : Char := Char.ofNat 123
def rbrace : Char := Char.ofNat 125

/-- The triple-backtick fence delimiter of a markdown code block. -/
def fenceStr : Str := [backtick, backtick, backtick]

def isFenceAt (s : Str) : Bool := fenceStr.isPrefixOf s

/-- Suffix just after the leftmost fence occurrence (regex start). -/
def dropToFence : Str → Option Str
  | [] => none
  | s@(_ :: rest) => if isFenceAt s then some (s.drop 3) else dropToFence rest

/-- Lazy search for the closing fence: the shortest prefix of `body`
whose remainder is whitespace followed by a fence — the capture of
the regex match. -/
def findCloseGroup : Str → Option Str
  | [] => none
  | c :: rest =>
    if isFenceAt ((c :: rest).dropWhile isPySpace) then some []
    else (findCloseGroup rest).map fun g => c :: g

/-- Capture group of the leftmost match of the code-block pattern
(three backticks, optional `json` tag, lazily matched body, closing
fence), as Python `re.search` finds it. -/
def fencedGroup (t : Str) : Option Str :=
  match dropToFence t with
  | none => none
  | some r =>
    let r2 := if ("json").data.isPrefixOf r then r.drop 4 else r
    findCloseGroup (r2.dropWhile isPySpace)

/-- Suffix of `s` from the first occurrence of `c` (inclusive). -/
def afterFirst (c : Char) : Str → Option Str
  | [] => none
  | x :: rest => if x = c then some (x :: rest) else afterFirst c rest

/-- Prefix of `s` up to the last occurrence of `c` (inclusive). -/
def upToLast (c : Char) (s : Str) : Option Str :=
  (afterFirst c s.reverse).map List.reverse

/-- Match of the greedy object pattern: from the first opening brace
through the last closing brace, when one follows. -/
def braceSpan (t : Str) : Option Str :=
  (afterFirst lbrace t).bind (upToLast rbrace)

/-- Match of the greedy array pattern, analogously. -/
def bracketSpan (t : Str) : Option Str :=
  (afterFirst '[' t).bind (upToLast ']')

/-- `IncidentAgent._extract_json`: the empty-input guard, then four
extraction methods in order — direct parse of the trimmed text, fenced
code block capture, brace-delimited span, bracket-delimited span — the
first successful parse wins, and the empty object is returned when all
fail. -/
def extractJson (t : Str) : Json :=
  if t.isEmpty then .obj []
  else
    match jsonLoads (pyStrip t) with
    | some v => v
    | none =>
      match (fencedGroup t).bind jsonLoads with
      | some v => v
      | none =>
        match (braceSpan t).bind jsonLoads with
        | some v => v
        | none =>
          match (bracketSpan t).bind jsonLoads with
          | some v => v
          | none => .obj []

/-! ## Incident agent (`src/agent/agent.py`) -/

/-- `IncidentAgent.ALLOWED_COMMANDS`, the read-only command whitelist. -/
def ALLOWED_COMMANDS : List Str :=
  [("kubectl get").data, ("kubectl describe").data,
   ("kubectl logs").data, ("kubectl top").data]

/-- `any(cmd.startswith(allowed) for allowed in self.ALLOWED_COMMANDS)`. -/
def startsAllowed (cmd : Str) : Bool :=
  ALLOWED_COMMANDS.any fun p => p.isPrefixOf cmd

/-- `IncidentAgent.IGNORED_SERVICE_PATTERNS`. -/
def IGNORED_SERVICE_PATTERNS : List Str :=
  [("init-runbooks").data, ("kube-state-metrics").data, ("orchestrator-").data,
   ("prometheus").data, ("alertmanager").data, ("grafana").data, ("loki").data,
   ("promtail").data, ("qdrant").data, ("minio").data, ("kafka").data]

/-- Python substring containment `p in s`. -/
def pyIn (p : Str) : Str → Bool
  | [] => p.isEmpty
  | s@(_ :: rest) => p.isPrefixOf s || pyIn p rest

/-- `_should_ignore_alert`: substring match of any pattern. -/
def shouldIgnoreAlert (service_name : Str) : Bool :=
  IGNORED_SERVICE_PATTERNS.any fun p => pyIn p service_name

/-- The shell metacharacters removed by `_sanitize_input`. -/
def isInjectionChar (c : Char) : Bool :=
  c = ';' || c = '|' || c = '&' || c = '$' || c = backtick

/-- `_sanitize_input`: strip injection characters, truncate to 500. -/
def sanitizeInput (value : Str) : Str :=
  (value.filter fun c => !(isInjectionChar c)).take 500

/-- Fields of the inbound `DomainEvent` that the agent reads
(`original_event.metadata` flattened to the string map). -/
structure Event where
  event_id : Str
  service_name : Str
  domain : Str
  raw_payload : Str
  metadata : List (Str × Str)

/-- A proposed remediation `Action`; the fresh uuid fields
(`action_id`, `decision_id` back-reference) carry no information and are
omitted from the embedding. -/
structure Action where
  action_type : Str
  target : Str
  reasoning : Str
  params : List (Str × Str)

/-- The produced `Decision` (fresh `decision_id` uuid omitted). -/
structure Decision where
  incident_id : Str
  analysis : Str
  confidence_score : ℚ
  proposed_actions : List Action

/-- `_discover_resources` output (each listing already per-type
error-absorbed and capped at 20 by the source). -/
structure Resources where
  pods : List Str
  deployments : List Str
  services : List Str
  replicasets : List Str

/-- `_find_matching_resources` output. -/
structure Matching where
  pods : List Str
  deployments : List Str

def lowerStr (s : Str) : Str := s.map Char.toLower

/-- `service_lower in name.lower() or any(part in name.lower() for part
in service_lower.split("-"))`. -/
def matchesName (service_lower : Str) (name : Str) : Bool :=
  pyIn service_lower (lowerStr name) ||
    (List.splitOn '-' service_lower).any fun part => pyIn part (lowerStr name)

/-- `IncidentAgent._find_matching_resources`. -/
def findMatchingResources (service_name : Str) (resources : Resources) :
    Matching :=
  let sl := lowerStr service_name
  { pods := resources.pods.filter fun p => matchesName sl p
    deployments := resources.deployments.filter fun d => matchesName sl d }

/-- `IncidentAgent._generate_fallback_commands`. -/
def generateFallbackCommands (ns : Str) (resources : Resources)
    (matching : Matching) : List Str :=
  let base : List Str :=
    match matching.pods with
    | pod :: _ =>
      [("kubectl describe pod ").data ++ pod ++ (" -n ").data ++ ns,
       ("kubectl logs ").data ++ pod ++ (" -n ").data ++ ns ++ (" --tail=100").data]
    | [] =>
      match resources.pods with
      | pod :: _ => [("kubectl describe pod ").data ++ pod ++ (" -n ").data ++ ns]
      | [] => []
  (base ++ [("kubectl get events -n ").data ++ ns ++
    (" --sort-by=.lastTimestamp | tail -20").data]).take 5

/-- The `for cmd in commands[:5]` validation loop: strip, keep only
whitelisted commands; a non-string element raises (`AttributeError` on
`.strip`), aborting the whole `try` block. -/
def validateCommands : List Json → Except Unit (List Str)
  | [] => .ok []
  | Json.str s :: rest =>
    match validateCommands rest with
    | .error e => .error e
    | .ok v =>
      let c := pyStrip s
      if startsAllowed c then .ok (c :: v) else .ok v
  | _ :: _ => .error ()

/-- `data.get("commands", [])` followed by `commands[:5]` and the
validation loop, with Python's dynamic-type failure modes: `.get` on a
non-dict raises; slicing a non-sequence raises; slicing a string yields
its characters, each too short to match any whitelist prefix. -/
def commandsOfData : Json → Except Unit (List Str)
  | Json.obj fields =>
    match objGetD fields (("commands").data) (Json.arr []) with
    | Json.arr l => validateCommands (l.take 5)
    | Json.str _ => .ok []
    | _ => .error ()
  | _ => .error ()

/-- `IncidentAgent._get_diagnostic_commands`: LLM plan, defensive JSON
extraction, whitelist validation; any failure or empty survivor set
falls back to the deterministic minimal plan. -/
def getDiagnosticCommands (genResult : Except Str Str) (ns : Str)
    (resources : Resources) (matching : Matching) : List Str :=
  match genResult with
  | .error _ => generateFallbackCommands ns resources matching
  | .ok text =>
    match commandsOfData (extractJson text) with
    | .error _ => generateFallbackCommands ns resources matching
    | .ok validated =>
      if validated.isEmpty then generateFallbackCommands ns resources matching
      else validated

/-- The security re-check of `_run_diagnostics`: only commands passing
the whitelist again reach `subprocess.run`. -/
def executedCommands (commands : List Str) : List Str :=
  commands.filter fun cmd => startsAllowed (pyStrip cmd)

def joinSep (sep : Str) : List Str → Str
  | [] => []
  | [x] => x
  | x :: y :: rest => x ++ sep ++ joinSep sep (y :: rest)

/-- `_run_diagnostics` report assembly: one labeled block per executed
command (success, error, or timeout text supplied by the environment),
with the fixed placeholder when nothing at all was gathered. -/
def runDiagnosticsReport (outputs : Str → Str) (commands : List Str) : Str :=
  let blocks := (executedCommands commands).map outputs
  if blocks.isEmpty then ("No diagnostic information could be gathered.").data
  else joinSep (("\n\n").data) blocks

/-- Python `str(v)` of a decoded JSON value, as coerced into
`action.params`. Scalars follow Python; the punctuation of nested
containers is rendered structurally (no claim depends on it). -/
def Json.render : Json → Str
  | .null => ("None").data
  | .bool b => if b then ("True").data else ("False").data
  | .num q => (toString q).data
  | .str s => s
  | .arr l => '[' :: (joinSep ((", ").data)
      (l.attach.map fun x => Json.render x.1) ++ [']'])
  | .obj o => lbrace :: (joinSep ((", ").data)
      (o.attach.map fun kv => kv.1.1 ++ (": ").data ++ Json.render kv.1.2) ++
      [rbrace])
  termination_by j => sizeOf j
  decreasing_by
    · rcases x with ⟨a, hm⟩
      have := List.sizeOf_lt_of_mem hm
      simp at this ⊢
      omega
    · rcases kv with ⟨⟨k, v⟩, hm⟩
      have := List.sizeOf_lt_of_mem hm
      simp at this ⊢
      omega

/-- Python `float(x)` on a decoded JSON value: numbers and booleans
convert, numeric strings parse (modelled with the JSON number grammar on
the stripped text; the `inf`/`nan` spellings are out of scope), anything
else raises `TypeError`/`ValueError`. -/
def pyFloat : Json → Except Unit ℚ
  | Json.num q => .ok q
  | Json.bool b => .ok (if b then 1 else 0)
  | Json.str s =>
    match parseNumber (pyStrip s) with
    | some (q, []) => .ok q
    | _ => .error ()
  | _ => .error ()

/-- One entry of `data.get("proposed_actions", [])`: field extraction
with defaults; a non-dict entry or a non-string field raises. -/
def actionOfData : Json → Except Unit Action
  | Json.obj fields =>
    match objGetD fields (("action_type").data) (Json.str (("unknown").data)),
        objGetD fields (("target").data) (Json.str (("unknown").data)),
        objGetD fields (("reasoning").data) (Json.str []) with
    | Json.str atype, Json.str tgt, Json.str why =>
      let ps : List (Str × Str) :=
        match objGet fields (("params").data) with
        | some (Json.obj po) => po.map fun kv => (kv.1, Json.render kv.2)
        | _ => []
      .ok { action_type := atype, target := tgt, reasoning := why, params := ps }
    | _, _, _ => .error ()
  | _ => .error ()

def actionsOfData : List Json → Except Unit (List Action)
  | [] => .ok []
  | a :: rest =>
    match actionOfData a with
    | .error e => .error e
    | .ok act =>
      match actionsOfData rest with
      | .error e => .error e
      | .ok acts => .ok (act :: acts)

/-- Iterating `data.get("proposed_actions", [])`: lists iterate their
entries; empty strings and empty dicts iterate zero times; every other
type raises when iterated or when an entry hits `.get`. -/
def proposedActionsOf : Json → Except Unit (List Action)
  | Json.arr l => actionsOfData l
  | Json.str [] => .ok []
  | Json.obj [] => .ok []
  | _ => .error ()

/-- `_parse_decision` after `data` is fixed: the falsy-data branch
builds the parse-error decision; the truthy branch decodes fields with
defaults (`analysis` default text, `confidence_score` default `0.5`),
raising on dynamic-type mismatches. -/
def decisionOfData (ev : Event) (llmOut : Str) (data : Json) :
    Except Unit Decision :=
  if data.truthy then
    match data with
    | Json.obj fields =>
      match objGetD fields (("analysis").data)
          (Json.str (("Analysis completed.").data)) with
      | Json.str analysisText =>
        match pyFloat (objGetD fields (("confidence_score").data)
            (Json.num (1/2))) with
        | .ok conf =>
          match proposedActionsOf
              (objGetD fields (("proposed_actions").data) (Json.arr [])) with
          | .ok acts =>
            .ok { incident_id := ev.event_id, analysis := analysisText,
                  confidence_score := conf, proposed_actions := acts }
          | .error e => .error e
        | .error e => .error e
      | _ => .error ()
    | _ => .error ()
  else
    .ok { incident_id := ev.event_id,
          analysis := ("Parse Error. Raw: ").data ++ llmOut.take 500,
          confidence_score := 0, proposed_actions := [] }

/-- `IncidentAgent._parse_decision`: extraction, one corrective retry
call when the first extraction is falsy (a failing retry is swallowed
and leaves the falsy data in place), then field decoding. The second
component counts the LLM calls made by the retry. -/
def parseDecision (ev : Event) (llmOut : Str) (genRetry : Except Str Str) :
    Except Unit Decision × ℕ :=
  let data0 := extractJson llmOut
  let dr : Json × ℕ :=
    if data0.truthy then (data0, 0)
    else
      match genRetry with
      | .ok rt => (extractJson rt, 1)
      | .error _ => (data0, 1)
  (decisionOfData ev llmOut dr.1, dr.2)

/-- `_fallback_decision`. -/
def fallbackDecision (ev : Event) (errText : Str) : Decision :=
  { incident_id := ev.event_id,
    analysis := ("Agent failed: ").data ++ errText,
    confidence_score := 0, proposed_actions := [] }

/-- `_ignored_decision`. -/
def ignoredDecision (ev : Event) : Decision :=
  { incident_id := ev.event_id,
    analysis := ("Alert for ").data ++ ev.service_name ++
      (" ignored (system component).").data,
    confidence_score := 0, proposed_actions := [] }

/-- `_cached_decision`. -/
def cachedDecision (ev : Event) : Decision :=
  { incident_id := ev.event_id,
    analysis := ("Alert for ").data ++ ev.service_name ++
      (" was recently processed. Skipping.").data,
    confidence_score := 0, proposed_actions := [] }

/-- The in-memory `_alert_cache` dict: key to last-processed instant. -/
abbrev AlertCache := List (Str × ℚ)

/-- `cache_key = f"..."` built from service name and domain. -/
def cacheKey (ev : Event) : Str := ev.service_name ++ [':'] ++ ev.domain

def cacheLookup : AlertCache → Str → Option ℚ
  | [], _ => none
  | (k, v) :: rest, key => if k = key then some v else cacheLookup rest key

/-- Python dict assignment `self._alert_cache[key] = now`. -/
def cacheInsert : AlertCache → Str → ℚ → AlertCache
  | [], k, v => [(k, v)]
  | (k0, v0) :: rest, k, v =>
    if k0 = k then (k0, v) :: rest else (k0, v0) :: cacheInsert rest k v

/-- The dict comprehension keeping entries with `now - v < ttl * 2`. -/
def cachePurge (cache : AlertCache) (now ttl : ℚ) : AlertCache :=
  cache.filter fun kv => decide (now - kv.2 < ttl * 2)

/-- `self._cache_ttl = 300`. -/
def CACHE_TTL : ℚ := 300

def metaGet : List (Str × Str) → Str → Option Str
  | [], _ => none
  | (k, v) :: rest, key => if k = key then some v else metaGet rest key

/-- The payload the top-1 vector hit carries. -/
structure RunbookHit where
  title : Str
  minio_path : Str
  minio_bucket : Str

/-- External-world outcomes one `analyze` run observes: the embedding
call, the vector search, the blob fetch, discovery, the three possible
generation calls, and the per-command diagnostic output. -/
structure Env where
  embed : Except Str (List ℚ)
  search : Except Str (Option RunbookHit)
  fetchDoc : Except Str Str
  discovered : Resources
  genDiag : Except Str Str
  genFinal : Except Str Str
  genRetry : Except Str Str
  diagOutputs : Str → Str

def isErrE {α : Type} : Except Str α → Bool
  | .error _ => true
  | .ok _ => false

/-- `IncidentAgent._build_context`: every failure degrades to a fixed
placeholder string; a hit fetches and truncates the document. -/
def buildContext (env : Env) : Str :=
  match env.embed with
  | .error _ => ("Context retrieval failed.").data
  | .ok _ =>
    match env.search with
    | .error _ => ("Context retrieval failed.").data
    | .ok none => ("No specific runbook found. Use general troubleshooting.").data
    | .ok (some hit) =>
      match env.fetchDoc with
      | .error _ => ("Runbook found but failed to retrieve content.").data
      | .ok content =>
        ("RELEVANT RUNBOOK: ").data ++ hit.title ++ content.take 3000

/-- Result of one `analyze` call: the decision, the updated dedup cache,
and how many LLM calls (embed + generate) were attempted. -/
structure AnalyzeResult where
  decision : Decision
  cache : AlertCache
  llmCalls : ℕ

/-- Steps 3–7 of `analyze` (after the ignore and dedup gates):
discovery, context, planning, execution, synthesis; the catch-all around
steps 6–7 degrades to the fallback decision. The embed, diagnostic
generation and final generation calls are always attempted (3 LLM
calls), plus the optional parse-retry call. -/
def analyzePipeline (env : Env) (cache2 : AlertCache) (ev : Event) :
    AnalyzeResult :=
  let ns := sanitizeInput
    ((metaGet ev.metadata (("namespace").data)).getD (("default").data))
  let resources := env.discovered
  let matching := findMatchingResources ev.service_name resources
  let _context := buildContext env
  let commands := getDiagnosticCommands env.genDiag ns resources matching
  let _report := runDiagnosticsReport env.diagOutputs commands
  match env.genFinal with
  | .error e => ⟨fallbackDecision ev e, cache2, 3⟩
  | .ok text =>
    let pr := parseDecision ev text env.genRetry
    match pr.1 with
    | .ok d => ⟨d, cache2, 3 + pr.2⟩
    | .error _ => ⟨fallbackDecision ev [], cache2, 3 + pr.2⟩

/-- `IncidentAgent.analyze`: ignore gate, dedup gate (5-minute TTL),
cache record/refresh and purge, then the pipeline. Total by
construction — every branch yields exactly one `Decision`. -/
def analyze (env : Env) (cache : AlertCache) (ev : Event) (now : ℚ) :
    AnalyzeResult :=
  if shouldIgnoreAlert ev.service_name then ⟨ignoredDecision ev, cache, 0⟩
  else
    let key := cacheKey ev
    let hit : Bool :=
      match cacheLookup cache key with
      | some lp => decide (now - lp < CACHE_TTL)
      | none => false
    if hit then ⟨cachedDecision ev, cache, 0⟩
    else
      analyzePipeline env (cachePurge (cacheInsert cache key now) now CACHE_TTL) ev

/-! ## Concrete fixtures for instantiating the agent theorems -/

/-- A representative non-system alert event. -/
def exEvent : Event :=
  { event_id := ("e1").data
    service_name := ("checkout").data
    domain := ("k8s").data
    raw_payload := ("CrashLoopBackOff").data
    metadata := [] }

/-- The environment in which every LLM provider call raises. -/
def exEnvAllFail : Env :=
  { embed := Except.error []
    search := Except.ok none
    fetchDoc := Except.error []
    discovered := ⟨[], [], [], []⟩
    genDiag := Except.error []
    genFinal := Except.error (("boom").data)
    genRetry := Except.error []
    diagOutputs := fun _ => [] }

/-- Same environment, but the final generation returns an analysis whose
confidence score lies outside `[0,1]`. -/
def exEnvBadConf : Env :=
  { exEnvAllFail with
    genFinal :=
      Except.ok (("\x7b\"analysis\": \"x\", \"confidence_score\": 2.0\x7d").data) }

/-- A planner response that mixes one whitelisted and one forbidden
command. -/
def exGenDelete : Except Str Str :=
  Except.ok
    (("\x7b\"commands\": [\"kubectl get pods -n d\", \"kubectl delete pod x\"]\x7d").data)

lemma maxTokens_cast (c : RLConfig) :
    ((burstN c : ℕ) : ℚ) = c.maxTokens := by
  have h1 : (0 : ℤ) ≤ max 1 (pyInt c.rpm) :=
    le_trans zero_le_one (le_max_left _ _)
  unfold burstN RLConfig.maxTokens
  have h2 : (((max 1 (pyInt c.rpm)).toNat : ℤ) : ℚ) =
      ((max 1 (pyInt c.rpm) : ℤ) : ℚ) := by
    rw [Int.toNat_of_nonneg h1]
  rw [← Int.cast_natCast, h2, Int.cast_max, Int.cast_one]

lemma one_le_maxTokens (c : RLConfig) : (1 : ℚ) ≤ c.maxTokens :=
  le_max_left _ _

lemma tryAcquire_tokens_le (c : RLConfig) (st : RLState) (now : ℚ)
    (h : st.tokens ≤ c.maxTokens) :
    (tryAcquire c st now).1.tokens ≤ c.maxTokens := by
  unfold tryAcquire
  split
  · exact h
  · unfold tryAcquireRefill
    dsimp only
    split
    · dsimp only
      calc min c.maxTokens (st.tokens + (now - st.last_refill) * c.tokensPerSecond) - 1
            ≤ min c.maxTokens (st.tokens + (now - st.last_refill) * c.tokensPerSecond) := by
              linarith
        _ ≤ c.maxTokens := min_le_left _ _
    · exact min_le_left _ _

lemma report_tokens_le (c : RLConfig) (st : RLState) (now : ℚ)
    (hint : Option ℚ) (h : st.tokens ≤ c.maxTokens) :
    (reportRateLimitError c st now hint).tokens ≤ c.maxTokens := by
  unfold reportRateLimitError
  split
  · dsimp only
    exact le_trans zero_le_one (one_le_maxTokens c)
  · exact h

lemma headers_tokens_eq (c : RLConfig) (st : RLState) (now : ℚ)
    (ra : Option ℚ) : (updateFromHeaders c st now ra).tokens = st.tokens := by
  unfold updateFromHeaders
  split
  · cases ra with
    | none => rfl
    | some r => dsimp only; split <;> rfl
  · rfl

/-- Bucket-capacity invariant over all reachable limiter states. -/
lemma reachable_tokens_le (c : RLConfig) (st : RLState)
    (hr : Reachable c st) : st.tokens ≤ c.maxTokens := by
  induction hr with
  | init t0 => exact le_refl _
  | step_acquire st now _ ih => exact tryAcquire_tokens_le c st now ih
  | step_report st now hint _ ih => exact report_tokens_le c st now hint ih
  | step_headers st now ra _ ih => rw [headers_tokens_eq]; exact ih

/-- Draining the bucket with back-to-back `acquire` calls at a single
instant: while at least `n` tokens are stored, `n` consecutive attempts
all succeed with zero wait and remove exactly `n` tokens. -/
lemma acquireSeq_drain (c : RLConfig) (now : ℚ) :
    ∀ (n : ℕ) (st : RLState), st.retry_after_until = none →
      st.last_refill = now → (n : ℚ) ≤ st.tokens →
      st.tokens ≤ c.maxTokens →
      (acquireSeq c now st n).2 = List.replicate n 0 ∧
      (acquireSeq c now st n).1 = { st with tokens := st.tokens - n } := by
  intro n
  induction n with
  | zero =>
    intro st h1 h2 h3 h4
    refine ⟨rfl, ?_⟩
    cases st
    simp [acquireSeq]
  | succ n ih =>
    intro st h1 h2 h3 h4
    have h3' : ((n : ℚ) + 1) ≤ st.tokens := by exact_mod_cast h3
    have h6 : (0 : ℚ) ≤ (n : ℚ) := Nat.cast_nonneg n
    have hone : (1 : ℚ) ≤ st.tokens := by linarith
    have hacq : tryAcquire c st now =
        ({ st with tokens := st.tokens - 1, last_refill := now }, 0) := by
      unfold tryAcquire
      rw [if_neg]
      · unfold tryAcquireRefill
        simp only [h2, sub_self, zero_mul, add_zero, min_eq_right h4, if_pos hone]
      · rw [h1]
        simp [truthyOptRat]
    have hrec := ih { st with tokens := st.tokens - 1, last_refill := now }
      h1 rfl (by dsimp only; linarith) (by dsimp only; linarith)
    constructor
    · show (acquireSeq c now st (n + 1)).2 = _
      simp only [acquireSeq, hacq]
      rw [hrec.1]
      rfl
    · show (acquireSeq c now st (n + 1)).1 = _
      simp only [acquireSeq, hacq]
      rw [hrec.2]
      cases st with
      | mk tk lr ra rau =>
        have h2' : lr = now := h2
        subst h2'
        simp only [RLState.mk.injEq, and_true, true_and]
        push_cast
        ring

/-- During an active forced-cooldown window, `_try_acquire` leaves the
state untouched and returns the remaining window length. -/
lemma tryAcquire_in_window (c : RLConfig) (st : RLState) (t u : ℚ)
    (hu : st.retry_after_until = some u) (hu0 : u ≠ 0) (ht : t < u) :
    tryAcquire c st t = (st, u - t) := by
  unfold tryAcquire
  rw [if_pos]
  · rw [hu]
    rfl
  · rw [hu]
    exact ⟨by simp [truthyOptRat, hu0], by simpa using ht⟩

/-- Claim C4: after `report_rate_limit_error(r)` with an explicit hint
`r > 0` (or with no hint, defaulting the cooldown to 60 seconds) on an
enabled limiter, the token count is drained to zero and every `acquire`
during the following `r` (resp. 60) seconds does not obtain a token:
`_try_acquire` returns the positive remaining cooldown and leaves the
state untouched, regardless of how many tokens were stored before. -/
theorem report_throttled_forces_cooldown (c : RLConfig) (st : RLState)
    (now r t : ℚ) (hen : c.enabled = true) (hnow : 0 ≤ now) :
    (0 < r → t < now + r →
      (reportRateLimitError c st now (some r)).tokens = 0 ∧
      (reportRateLimitError c st now (some r)).retry_after_until = some (now + r) ∧
      (tryAcquire c (reportRateLimitError c st now (some r)) t).1 =
        reportRateLimitError c st now (some r) ∧
      (tryAcquire c (reportRateLimitError c st now (some r)) t).2 = now + r - t ∧
      0 < (tryAcquire c (reportRateLimitError c st now (some r)) t).2) ∧
    (t < now + 60 →
      (reportRateLimitError c st now none).tokens = 0 ∧
      (reportRateLimitError c st now none).retry_after_until = some (now + 60) ∧
      (tryAcquire c (reportRateLimitError c st now none) t).2 = now + 60 - t ∧
      0 < (tryAcquire c (reportRateLimitError c st now none) t).2) := by
  constructor
  · intro hr ht
    have h1 : (reportRateLimitError c st now (some r)).retry_after_until =
        some (now + r) := by
      unfold reportRateLimitError
      rw [if_pos hen]
      dsimp only
      rw [if_pos hr.ne']
    have h2 : (reportRateLimitError c st now (some r)).tokens = 0 := by
      unfold reportRateLimitError
      rw [if_pos hen]
    have huntil : (0 : ℚ) < now + r := by linarith
    have hw := tryAcquire_in_window c (reportRateLimitError c st now (some r))
      t (now + r) h1 huntil.ne' ht
    refine ⟨h2, h1, by rw [hw], by rw [hw], by rw [hw]; dsimp only; linarith⟩
  · intro ht
    have h1 : (reportRateLimitError c st now none).retry_after_until =
        some (now + 60) := by
      unfold reportRateLimitError
      rw [if_pos hen]
    have h2 : (reportRateLimitError c st now none).tokens = 0 := by
      unfold reportRateLimitError
      rw [if_pos hen]
    have huntil : (0 : ℚ) < now + 60 := by linarith
    have hw := tryAcquire_in_window c (reportRateLimitError c st now none)
      t (now + 60) h1 huntil.ne' ht
    refine ⟨h2, h1, by rw [hw], by rw [hw]; dsimp only; linarith⟩

/-- Concrete run of the forced-cooldown theorem: `reportThrottled(5)` at
instant 0 on a freshly built 5-rpm limiter drains the bucket and makes
the acquire attempt at instant 3 wait 2 more seconds. -/
theorem report_throttled_forces_cooldown_witness :
    (reportRateLimitError ⟨5, true⟩ (RLState.init ⟨5, true⟩ 0) 0 (some 5)).tokens = 0 ∧
    (tryAcquire ⟨5, true⟩
      (reportRateLimitError ⟨5, true⟩ (RLState.init ⟨5, true⟩ 0) 0 (some 5)) 3).2 = 2 ∧
    0 < (tryAcquire ⟨5, true⟩
      (reportRateLimitError ⟨5, true⟩ (RLState.init ⟨5, true⟩ 0) 0 (some 5)) 3).2 := by
  have h := (report_throttled_forces_cooldown ⟨5, true⟩ (RLState.init ⟨5, true⟩ 0)
    0 5 3 rfl (le_refl 0)).1 (by norm_num) (by norm_num)
  refine ⟨h.1, ?_, h.2.2.2.2⟩
  rw [h.2.2.2.1]
  norm_num

/-- Claim C8: in every reachable state of the limiter the stored token
count never exceeds the capacity `max(1, int(requests_per_minute))`, and
immediately after construction `acquire()` succeeds without waiting
exactly capacity-many times, after which the next attempt must wait. -/
theorem token_bucket_capacity_and_burst (c : RLConfig) (h : 0 < c.rpm) :
    (∀ st, Reachable c st → st.tokens ≤ c.maxTokens) ∧
    (∀ t0 : ℚ,
      (acquireSeq c t0 (RLState.init c t0) (burstN c)).2 =
        List.replicate (burstN c) 0 ∧
      0 < (tryAcquire c (acquireSeq c t0 (RLState.init c t0) (burstN c)).1 t0).2) := by
  refine ⟨fun st hr => reachable_tokens_le c st hr, fun t0 => ?_⟩
  have hcast := maxTokens_cast c
  have hd := acquireSeq_drain c t0 (burstN c) (RLState.init c t0) rfl rfl
    (by rw [hcast]; exact le_refl _) (le_refl _)
  refine ⟨hd.1, ?_⟩
  rw [hd.2]
  have hcap0 : (0 : ℚ) ≤ c.maxTokens := le_trans zero_le_one (one_le_maxTokens c)
  have htps : 0 < c.tokensPerSecond := by
    unfold RLConfig.tokensPerSecond
    exact div_pos h (by norm_num)
  have htok0 : c.maxTokens - ((burstN c : ℕ) : ℚ) = 0 := by
    rw [hcast]
    ring
  unfold tryAcquire
  rw [if_neg (by simp [truthyOptRat, RLState.init])]
  unfold tryAcquireRefill
  simp only [RLState.init, htok0, sub_self, zero_mul, add_zero,
    min_eq_right hcap0]
  rw [if_neg (by norm_num)]
  simp only [sub_zero]
  exact one_div_pos.mpr htps

/-- Concrete run of the capacity/burst theorem at 5 requests per minute:
five immediate acquisitions succeed and the sixth must wait. -/
theorem token_bucket_capacity_and_burst_witness :
    (acquireSeq ⟨5, true⟩ 0 (RLState.init ⟨5, true⟩ 0) (burstN ⟨5, true⟩)).2 =
      List.replicate (burstN ⟨5, true⟩) 0 ∧
    0 < (tryAcquire ⟨5, true⟩
      (acquireSeq ⟨5, true⟩ 0 (RLState.init ⟨5, true⟩ 0) (burstN ⟨5, true⟩)).1 0).2 :=
  (token_bucket_capacity_and_burst ⟨5, true⟩ (by norm_num)).2 0

lemma specSleepsSeg_succ (maxR : ℕ) (oc : ℕ → LLMOutcome) (i n : ℕ) :
    specSleepsSeg maxR oc i (n + 1) =
      specAttemptSleeps maxR i (oc i) ++ specSleepsSeg maxR oc (i + 1) n := by
  unfold specSleepsSeg
  rw [List.range_succ_eq_map]
  simp only [List.map_cons, List.flatten_cons, List.map_map, Nat.add_zero]
  congr 1
  have hm : List.map
      ((fun j => specAttemptSleeps maxR (i + j) (oc (i + j))) ∘ Nat.succ)
      (List.range n) =
      List.map (fun j => specAttemptSleeps maxR (i + 1 + j) (oc (i + 1 + j)))
      (List.range n) := by
    apply List.map_congr_left
    intro a _
    simp only [Function.comp_apply, Nat.succ_eq_add_one]
    have hidx : i + (a + 1) = i + 1 + a := by omega
    rw [hidx]
  rw [hm]

lemma callFrom_allFail (maxR : ℕ) (oc : ℕ → LLMOutcome) :
    ∀ n i last, maxR - i = n →
      (∀ j, i ≤ j → j < maxR → (oc j).isSuccess = false) →
      callWithRetryFrom maxR oc i last =
        (.error (terminalMsg maxR
          (if i < maxR then some ((oc (maxR - 1)).errMsg) else last)),
         specSleepsSeg maxR oc i n) := by
  intro n
  induction n with
  | zero =>
    intro i last hn _
    have hge : ¬ i < maxR := by omega
    rw [callWithRetryFrom, dif_neg hge, if_neg hge]
    rfl
  | succ n ih =>
    intro i last hn hfail
    have hlt : i < maxR := by omega
    rw [specSleepsSeg_succ, callWithRetryFrom, dif_pos hlt, if_pos hlt]
    cases hoc : oc i with
    | success t =>
      have hfi := hfail i (le_refl i) hlt
      rw [hoc] at hfi
      simp [LLMOutcome.isSuccess] at hfi
    | rateLimited hint m =>
      have hrec := ih (i + 1) (some m) (by omega)
        (fun j hj1 hj2 => hfail j (by omega) hj2)
      dsimp only
      rw [hrec]
      by_cases hi : i + 1 < maxR
      · rw [if_pos hi]
        simp [specAttemptSleeps]
      · rw [if_neg hi]
        have hieq : maxR - 1 = i := by omega
        rw [hieq, hoc]
        simp [specAttemptSleeps, LLMOutcome.errMsg]
    | apiError m =>
      have hrec := ih (i + 1) (some m) (by omega)
        (fun j hj1 hj2 => hfail j (by omega) hj2)
      dsimp only
      rw [hrec]
      by_cases hi : i + 1 < maxR
      · rw [if_pos hi]
        simp [specAttemptSleeps]
      · rw [if_neg hi]
        have hieq : maxR - 1 = i := by omega
        rw [hieq, hoc]
        simp [specAttemptSleeps, LLMOutcome.errMsg]
    | otherError m =>
      have hrec := ih (i + 1) (some m) (by omega)
        (fun j hj1 hj2 => hfail j (by omega) hj2)
      dsimp only
      rw [hrec]
      by_cases hi : i + 1 < maxR
      · rw [if_pos (show i < maxR - 1 by omega), if_pos hi]
        simp [specAttemptSleeps, if_pos hi]
      · rw [if_neg (show ¬ i < maxR - 1 by omega), if_neg hi]
        have hieq : maxR - 1 = i := by omega
        rw [hieq, hoc]
        simp [specAttemptSleeps, LLMOutcome.errMsg, if_neg hi]

lemma callFrom_firstSuccess (maxR : ℕ) (oc : ℕ → LLMOutcome) :
    ∀ n i last k t, maxR - i = n → i ≤ k → k < maxR → oc k = .success t →
      (∀ j, i ≤ j → j < k → (oc j).isSuccess = false) →
      callWithRetryFrom maxR oc i last =
        (.ok t, specSleepsSeg maxR oc i (k - i)) := by
  intro n
  induction n with
  | zero =>
    intro i last k t hn hik hk _ _
    omega
  | succ n ih =>
    intro i last k t hn hik hk hk_succ hfail
    have hlt : i < maxR := by omega
    rw [callWithRetryFrom, dif_pos hlt]
    by_cases hik' : i = k
    · subst hik'
      rw [hk_succ, Nat.sub_self]
      rfl
    · have hikl : i < k := lt_of_le_of_ne hik hik'
      have hseg : specSleepsSeg maxR oc i (k - i) =
          specAttemptSleeps maxR i (oc i) ++
            specSleepsSeg maxR oc (i + 1) (k - (i + 1)) := by
        have hcnt : k - i = (k - (i + 1)) + 1 := by omega
        rw [hcnt, specSleepsSeg_succ]
      rw [hseg]
      have hfi := hfail i (le_refl i) hikl
      cases hoc : oc i with
      | success t2 =>
        rw [hoc] at hfi
        simp [LLMOutcome.isSuccess] at hfi
      | rateLimited hint m =>
        have hrec := ih (i + 1) (some m) k t (by omega) (by omega) hk hk_succ
          (fun j hj1 hj2 => hfail j (by omega) hj2)
        dsimp only
        rw [hrec]
        simp [specAttemptSleeps]
      | apiError m =>
        have hrec := ih (i + 1) (some m) k t (by omega) (by omega) hk hk_succ
          (fun j hj1 hj2 => hfail j (by omega) hj2)
        dsimp only
        rw [hrec]
        simp [specAttemptSleeps]
      | otherError m =>
        have hrec := ih (i + 1) (some m) k t (by omega) (by omega) hk hk_succ
          (fun j hj1 hj2 => hfail j (by omega) hj2)
        have hi : i + 1 < maxR := by omega
        dsimp only
        rw [hrec, if_pos (show i < maxR - 1 by omega)]
        simp [specAttemptSleeps, if_pos hi]

/-- Claim C6: in the `generate` retry loop, attempt `i` (0-based) sleeps
`min(hint or 10·2^i, 120)` seconds after a throttled error,
`min(5·2^i, 60)` seconds after a transient service error, and `2·2^i`
seconds (uncapped) after any other error except on the final attempt;
after `max_retries` failed attempts the call fails with a terminal error
wrapping the last cause. -/
theorem retry_backoff_schedule (maxR : ℕ) (oc : ℕ → LLMOutcome) :
    ((∀ i, i < maxR → (oc i).isSuccess = false) →
      callWithRetry maxR oc =
        (.error (terminalMsg maxR
          (if 0 < maxR then some ((oc (maxR - 1)).errMsg) else none)),
         specSleepsSeg maxR oc 0 maxR)) ∧
    (∀ k t, k < maxR → oc k = .success t →
      (∀ i, i < k → (oc i).isSuccess = false) →
      callWithRetry maxR oc = (.ok t, specSleepsSeg maxR oc 0 k)) := by
  constructor
  · intro hfail
    unfold callWithRetry
    exact callFrom_allFail maxR oc maxR 0 none (by omega)
      (fun j _ hj2 => hfail j hj2)
  · intro k t hk hoc hfail
    unfold callWithRetry
    have h := callFrom_firstSuccess maxR oc maxR 0 none k t (by omega)
      (Nat.zero_le k) hk hoc (fun j _ hj2 => hfail j hj2)
    simpa using h

/-- Concrete run of the backoff theorem: three attempts, all throttled
with no hint, sleep 10, 20 and 40 seconds and end in the terminal
error. -/
theorem retry_backoff_schedule_witness :
    callWithRetry 3 (fun _ => LLMOutcome.rateLimited none (("boom").data)) =
      (.error (terminalMsg 3 (some (("boom").data))), [10, 20, 40]) := by
  have h := (retry_backoff_schedule 3
    (fun _ => LLMOutcome.rateLimited none (("boom").data))).1
    (fun _ _ => rfl)
  rw [h]
  norm_num [specSleepsSeg, specAttemptSleeps, hintOrDefault, List.range_succ,
    LLMOutcome.errMsg]

/-- Claim C10: reading the `available_tokens` property never mutates the
limiter state — all four stored fields are unchanged — and two
consecutive reads at the same instant return the same value. -/
theorem available_tokens_is_pure (c : RLConfig) (st : RLState) (now : ℚ) :
    (availableTokens c st now).1 = st ∧
    (availableTokens c st now).1.tokens = st.tokens ∧
    (availableTokens c st now).1.last_refill = st.last_refill ∧
    (availableTokens c st now).1.retry_after = st.retry_after ∧
    (availableTokens c st now).1.retry_after_until = st.retry_after_until ∧
    (availableTokens c (availableTokens c st now).1 now).2 =
      (availableTokens c st now).2 :=
  ⟨rfl, rfl, rfl, rfl, rfl, rfl⟩

lemma dropWhile_append_all {p : Char → Bool} :
    ∀ (A X : Str), (∀ a ∈ A, p a = true) →
      (A ++ X).dropWhile p = X.dropWhile p
  | [], _, _ => rfl
  | a :: A, X, h => by
    rw [List.cons_append,
      List.dropWhile_cons_of_pos (h a (List.mem_cons_self a A))]
    exact dropWhile_append_all A X fun x hx => h x (List.mem_cons_of_mem a hx)

lemma dropWhile_append_ne_nil {p : Char → Bool} :
    ∀ (A X : Str), A.dropWhile p ≠ [] →
      (A ++ X).dropWhile p = A.dropWhile p ++ X
  | [], _, h => absurd rfl h
  | a :: A, X, h => by
    by_cases hp : p a = true
    · rw [List.cons_append, List.dropWhile_cons_of_pos hp,
        List.dropWhile_cons_of_pos hp]
      rw [List.dropWhile_cons_of_pos hp] at h
      exact dropWhile_append_ne_nil A X h
    · rw [List.cons_append, List.dropWhile_cons_of_neg hp,
        List.dropWhile_cons_of_neg hp, List.cons_append]

lemma dropWhile_append_singleton {p : Char → Bool} (c : Char)
    (hc : p c = false) :
    ∀ (A : Str), (A ++ [c]).dropWhile p = A.dropWhile p ++ [c]
  | [] => by
    simp only [List.nil_append, List.dropWhile]
    rw [hc]
  | a :: A => by
    by_cases hp : p a = true
    · rw [List.cons_append, List.dropWhile_cons_of_pos hp,
        List.dropWhile_cons_of_pos hp]
      exact dropWhile_append_singleton c hc A
    · rw [List.cons_append, List.dropWhile_cons_of_neg hp,
        List.dropWhile_cons_of_neg hp, List.cons_append]

lemma mem_of_mem_dropWhile {p : Char → Bool} :
    ∀ (l : Str) (a : Char), a ∈ l.dropWhile p → a ∈ l
  | [], _, h => h
  | b :: l, a, h => by
    by_cases hp : p b = true
    · rw [List.dropWhile_cons_of_pos hp] at h
      exact List.mem_cons_of_mem b (mem_of_mem_dropWhile l a h)
    · rw [List.dropWhile_cons_of_neg hp] at h
      exact h

lemma isFenceAt_cons_ne (c : Char) (X : Str) (hc : c ≠ backtick) :
    isFenceAt (c :: X) = false := by
  unfold isFenceAt fenceStr
  show ((backtick :: [backtick, backtick]).isPrefixOf (c :: X)) = false
  rw [List.isPrefixOf]
  rw [show (backtick == c) = false from beq_eq_false_iff_ne.mpr (Ne.symm hc)]
  rfl

/-- Lazy closing-fence search over a backtick-free body followed by the
closing delimiter: the capture is the body with its trailing whitespace
removed. -/
lemma findClose_generic (t : Str) (hbt : backtick ∉ t) :
    findCloseGroup (t ++ ('\n' :: fenceStr)) =
      some ((t.reverse.dropWhile isPySpace).reverse) := by
  induction t with
  | nil => rfl
  | cons c rest ih =>
    have hc : c ≠ backtick := fun h => hbt (h ▸ List.mem_cons_self c rest)
    have hbr : backtick ∉ rest := fun h => hbt (List.mem_cons_of_mem c h)
    rw [List.cons_append]
    simp only [findCloseGroup]
    by_cases hws : isPySpace c = true
    · rw [List.dropWhile_cons_of_pos hws]
      by_cases hall : rest.dropWhile isPySpace = []
      · have hallm : ∀ a ∈ rest, isPySpace a = true :=
          List.dropWhile_eq_nil_iff.mp hall
        rw [dropWhile_append_all rest _ hallm]
        rw [if_pos (show isFenceAt (('\n' :: fenceStr).dropWhile isPySpace) = true
          from rfl)]
        have hrev : ((c :: rest).reverse.dropWhile isPySpace) = [] := by
          apply List.dropWhile_eq_nil_iff.mpr
          intro x hx
          rcases List.mem_cons.mp (List.mem_reverse.mp hx) with h | h
          · rw [h]; exact hws
          · exact hallm x h
        rw [hrev]
        rfl
      · rw [dropWhile_append_ne_nil rest _ hall]
        obtain ⟨d, ds, hd⟩ : ∃ d ds, rest.dropWhile isPySpace = d :: ds := by
          cases hh : rest.dropWhile isPySpace with
          | nil => exact absurd hh hall
          | cons d ds => exact ⟨d, ds, rfl⟩
        have hdm : d ∈ rest :=
          mem_of_mem_dropWhile rest d (by rw [hd]; exact List.mem_cons_self d ds)
        have hdb : d ≠ backtick := fun h => hbr (h ▸ hdm)
        rw [hd, List.cons_append,
          if_neg (by simp [isFenceAt_cons_ne d _ hdb])]
        rw [ih hbr]
        have hrevne : rest.reverse.dropWhile isPySpace ≠ [] := by
          intro hnil
          apply hall
          apply List.dropWhile_eq_nil_iff.mpr
          intro x hx
          exact List.dropWhile_eq_nil_iff.mp hnil x (List.mem_reverse.mpr hx)
        have hsr : ((c :: rest).reverse.dropWhile isPySpace).reverse =
            c :: (rest.reverse.dropWhile isPySpace).reverse := by
          rw [List.reverse_cons, dropWhile_append_ne_nil rest.reverse [c] hrevne,
            List.reverse_append]
          rfl
        rw [hsr]
        rfl
    · have hcf : isPySpace c = false := by
        cases hx : isPySpace c
        · rfl
        · exact absurd hx hws
      rw [List.dropWhile_cons_of_neg hws,
        if_neg (by simp [isFenceAt_cons_ne c _ hc])]
      rw [ih hbr]
      have hsr : ((c :: rest).reverse.dropWhile isPySpace).reverse =
          c :: (rest.reverse.dropWhile isPySpace).reverse := by
        rw [List.reverse_cons, dropWhile_append_singleton c hcf rest.reverse,
          List.reverse_append]
        rfl
      rw [hsr]
      rfl

/-- The fenced-block capture on `"```json\n" + t + "\n```"` is exactly
the stripped payload, for backtick-free `t`. -/
lemma fencedGroup_wrap (t : Str) (hbt : backtick ∉ t) :
    fencedGroup (("```json\n").data ++ t ++ ("\n```").data) =
      some (pyStrip t) := by
  show fencedGroup (backtick :: backtick :: backtick :: 'j' :: 's' :: 'o' :: 'n' ::
    '\n' :: (t ++ ('\n' :: fenceStr))) = some (pyStrip t)
  unfold fencedGroup
  rw [show dropToFence (backtick :: backtick :: backtick :: 'j' :: 's' :: 'o' ::
      'n' :: '\n' :: (t ++ ('\n' :: fenceStr))) =
      some ('j' :: 's' :: 'o' :: 'n' :: '\n' :: (t ++ ('\n' :: fenceStr))) by
    rw [dropToFence]
    rw [if_pos (show isFenceAt (backtick :: backtick :: backtick :: 'j' :: 's' ::
      'o' :: 'n' :: '\n' :: (t ++ ('\n' :: fenceStr))) = true from rfl)]
    rfl]
  show findCloseGroup ((if ("json").data.isPrefixOf ('j' :: 's' :: 'o' :: 'n' ::
    '\n' :: (t ++ ('\n' :: fenceStr))) then
      ('j' :: 's' :: 'o' :: 'n' :: '\n' :: (t ++ ('\n' :: fenceStr))).drop 4
    else 'j' :: 's' :: 'o' :: 'n' :: '\n' :: (t ++ ('\n' :: fenceStr))).dropWhile
      isPySpace) = some (pyStrip t)
  rw [if_pos (show (("json").data.isPrefixOf ('j' :: 's' :: 'o' :: 'n' :: '\n' ::
    (t ++ ('\n' :: fenceStr)))) = true from rfl)]
  show findCloseGroup ((t ++ ('\n' :: fenceStr)).dropWhile isPySpace) =
    some (pyStrip t)
  by_cases hall : t.dropWhile isPySpace = []
  · have hallm : ∀ a ∈ t, isPySpace a = true := List.dropWhile_eq_nil_iff.mp hall
    rw [dropWhile_append_all t _ hallm]
    show some [] = some (pyStrip t)
    unfold pyStrip
    rw [hall]
    rfl
  · rw [dropWhile_append_ne_nil t _ hall]
    have hbt' : backtick ∉ t.dropWhile isPySpace :=
      fun h => hbt (mem_of_mem_dropWhile t backtick h)
    rw [findClose_generic (t.dropWhile isPySpace) hbt']
    rfl

lemma parseValue_backtick (fuel : ℕ) (rest : Str) :
    parseValue fuel (backtick :: rest) = none := by
  cases fuel with
  | zero => rfl
  | succ n => rfl

lemma jsonLoads_backtick_head (u : Str) : jsonLoads (backtick :: u) = none := by
  unfold jsonLoads
  rw [show skipWs (backtick :: u) = backtick :: u from rfl,
    parseValue_backtick]

lemma pyStrip_sandwich (u : Str) :
    pyStrip (backtick :: (u ++ [backtick])) = backtick :: (u ++ [backtick]) := by
  unfold pyStrip
  rw [List.dropWhile_cons_of_neg (by decide)]
  rw [show (backtick :: (u ++ [backtick])).reverse =
    backtick :: (backtick :: u).reverse by simp]
  rw [List.dropWhile_cons_of_neg (by decide)]
  simp

/-- All four extraction methods fail on backtick-opened text whose only
fence content fails to parse; specialised below where needed. -/
lemma extract_first_method (t : Str) (v : Json)
    (h : jsonLoads (pyStrip t) = some v) : extractJson t = v := by
  unfold extractJson
  cases t with
  | nil =>
    rw [show pyStrip ([] : Str) = [] from rfl,
      show jsonLoads ([] : Str) = none from rfl] at h
    exact Option.noConfusion h
  | cons c rest =>
    rw [if_neg (by simp [List.isEmpty])]
    rw [h]

/-- Claim C7: `_extract_json` tries direct parse of the trimmed text,
then the fenced code block capture, then the first brace span, then the
first bracket span, returning the first success and the empty object when
all fail. Consequently any valid JSON text parses to itself; the same
object is recovered from a `"```json ... ```"` wrapping of any
backtick-free JSON text; and concrete prose-surrounded object and array
payloads, as well as the all-methods-fail case, behave as specified. -/
theorem extract_json_contract :
    (∀ t v, jsonLoads (pyStrip t) = some v → extractJson t = v) ∧
    (∀ t v, backtick ∉ t → jsonLoads (pyStrip t) = some v →
      extractJson (("```json\n").data ++ t ++ ("\n```").data) = v) ∧
    extractJson (("Here is the result: \x7b\"a\": 1\x7d. Thanks!").data) =
      Json.obj [(("a").data, Json.num 1)] ∧
    extractJson (("pick [1, 2] ok").data) = Json.arr [Json.num 1, Json.num 2] ∧
    extractJson (("no json here").data) = Json.obj [] := by
  refine ⟨extract_first_method, ?_, by with_unfolding_all rfl,
    by with_unfolding_all rfl, by with_unfolding_all rfl⟩
  intro t v hbt h
  have hw : ("```json\n").data ++ t ++ ("\n```").data =
      backtick :: (('`' :: '`' :: 'j' :: 's' :: 'o' :: 'n' :: '\n' ::
        (t ++ ['\n', backtick, backtick])) ++ [backtick]) := by
    simp [backtick]
  unfold extractJson
  rw [if_neg (by rw [hw]; simp [List.isEmpty])]
  rw [show jsonLoads (pyStrip (("```json\n").data ++ t ++ ("\n```").data)) =
      none by
    rw [hw, pyStrip_sandwich, ← hw]
    show jsonLoads (backtick :: _) = none
    exact jsonLoads_backtick_head _]
  rw [fencedGroup_wrap t hbt]
  show (match jsonLoads (pyStrip t) with
    | some v => v
    | none => _) = v
  rw [h]

/-- Concrete application of the extraction theorem: a clean JSON object
parses to itself, and its fenced wrapping recovers the same object. -/
theorem extract_json_contract_witness :
    extractJson (("\x7b\"a\": 1\x7d").data) = Json.obj [(("a").data, Json.num 1)] ∧
    extractJson (("```json\n").data ++ ("\x7b\"a\": 1\x7d").data ++ ("\n```").data) =
      Json.obj [(("a").data, Json.num 1)] := by
  constructor
  · exact extract_json_contract.1 (("\x7b\"a\": 1\x7d").data) _
      (by with_unfolding_all rfl)
  · exact extract_json_contract.2.1 (("\x7b\"a\": 1\x7d").data) _ (by decide)
      (by with_unfolding_all rfl)

lemma analyzePipeline_cache (env : Env) (c : AlertCache) (ev : Event) :
    (analyzePipeline env c ev).cache = c := by
  unfold analyzePipeline
  dsimp only
  split
  · rfl
  · split <;> rfl

lemma analyzePipeline_calls (env : Env) (c : AlertCache) (ev : Event) :
    3 ≤ (analyzePipeline env c ev).llmCalls := by
  unfold analyzePipeline
  dsimp only
  split
  · exact le_refl 3
  · split <;> exact Nat.le_add_right 3 _

lemma analyzePipeline_genFinal_err (env : Env) (c : AlertCache) (ev : Event)
    (hf : isErrE env.genFinal = true) :
    (analyzePipeline env c ev).decision.confidence_score = 0 := by
  unfold analyzePipeline
  dsimp only
  rcases hg : env.genFinal with e | t
  · rfl
  · rw [hg] at hf
    simp [isErrE] at hf

/-- Outside the dedup window (or on a fresh key), `analyze` records the
timestamp, purges stale entries and runs the pipeline. -/
lemma analyze_miss (env : Env) (cache : AlertCache) (ev : Event) (now : ℚ)
    (hig : shouldIgnoreAlert ev.service_name = false)
    (hmiss : ∀ lp, cacheLookup cache (cacheKey ev) = some lp →
      CACHE_TTL ≤ now - lp) :
    analyze env cache ev now =
      analyzePipeline env
        (cachePurge (cacheInsert cache (cacheKey ev) now) now CACHE_TTL) ev := by
  unfold analyze
  rw [if_neg (by simp [hig])]
  rcases hL : cacheLookup cache (cacheKey ev) with _ | lp
  · simp [hL]
  · have hd : decide (now - lp < CACHE_TTL) = false :=
      decide_eq_false (not_lt.mpr (hmiss lp hL))
    simp [hL, hd]

/-- Inside the dedup window `analyze` short-circuits with the cached
decision, makes no LLM call, and leaves the cache untouched. -/
lemma analyze_hit (env : Env) (cache : AlertCache) (ev : Event) (now lp : ℚ)
    (hig : shouldIgnoreAlert ev.service_name = false)
    (hL : cacheLookup cache (cacheKey ev) = some lp)
    (ht : now - lp < CACHE_TTL) :
    analyze env cache ev now = ⟨cachedDecision ev, cache, 0⟩ := by
  unfold analyze
  rw [if_neg (by simp [hig])]
  simp [hL, ht]

/-- Claim C1: `analyze` is terminal in every branch — the embedding is a
total function into `Decision` (no exception escapes: every helper
catches internally and the synthesis step is wrapped in the catch-all) —
and when every LLM provider call (embed, diagnostic generation, final
generation, parse retry) raises on every attempt, the returned Decision
has `confidence_score = 0`. -/
theorem analyze_total_failure_safety (env : Env) (cache : AlertCache)
    (ev : Event) (now : ℚ)
    (hE : isErrE env.embed = true) (hD : isErrE env.genDiag = true)
    (hF : isErrE env.genFinal = true) (hR : isErrE env.genRetry = true) :
    (analyze env cache ev now).decision.confidence_score = 0 := by
  unfold analyze
  split
  · rfl
  · dsimp only
    split
    · rfl
    · exact analyzePipeline_genFinal_err env _ ev hF

/-- Concrete run of total-failure safety: with every provider call
failing, the checkout alert still yields a zero-confidence Decision. -/
theorem analyze_total_failure_safety_witness :
    (analyze exEnvAllFail [] exEvent 0).decision.confidence_score = 0 :=
  analyze_total_failure_safety exEnvAllFail [] exEvent 0 rfl rfl rfl rfl

lemma cacheLookup_insert (c : AlertCache) (k : Str) (v : ℚ) :
    cacheLookup (cacheInsert c k v) k = some v := by
  induction c with
  | nil => simp [cacheInsert, cacheLookup]
  | cons kv rest ih =>
    obtain ⟨k0, v0⟩ := kv
    by_cases hk : k0 = k
    · simp [cacheInsert, hk, cacheLookup]
    · simp [cacheInsert, hk, cacheLookup, ih]

lemma cacheLookup_filter (c : AlertCache) (k : Str) (v : ℚ)
    (p : Str × ℚ → Bool) (hl : cacheLookup c k = some v)
    (hp : p (k, v) = true) : cacheLookup (c.filter p) k = some v := by
  induction c with
  | nil => simp [cacheLookup] at hl
  | cons kv rest ih =>
    obtain ⟨k0, v0⟩ := kv
    by_cases hk : k0 = k
    · subst hk
      rw [cacheLookup, if_pos rfl] at hl
      injection hl with hv
      subst hv
      simp only [List.filter_cons, hp, if_true]
      rw [cacheLookup, if_pos rfl]
    · rw [cacheLookup, if_neg hk] at hl
      rw [List.filter_cons]
      by_cases hp0 : p (k0, v0) = true
      · simp only [hp0, if_true]
        rw [cacheLookup, if_neg hk]
        exact ih hl
      · simp only [hp0]
        simp only [Bool.false_eq_true, if_false]
        exact ih hl

/-- Claim C5: ignoring neither event, with a fresh (or stale) key at the
first call — the first `analyze` runs the full pipeline, records its
timestamp, and purges every entry older than `2×TTL`; a second event
with the same key less than 300 s later returns the zero-confidence
cached Decision with no LLM invocation and an unchanged cache, while a
second event more than 300 s later runs the full pipeline again. -/
theorem dedup_window (env1 env2 : Env) (cache : AlertCache) (ev1 ev2 : Event)
    (t1 t2 : ℚ)
    (hig1 : shouldIgnoreAlert ev1.service_name = false)
    (hig2 : shouldIgnoreAlert ev2.service_name = false)
    (hkey : cacheKey ev2 = cacheKey ev1)
    (hmiss : ∀ lp, cacheLookup cache (cacheKey ev1) = some lp →
      CACHE_TTL ≤ t1 - lp) :
    0 < (analyze env1 cache ev1 t1).llmCalls ∧
    cacheLookup (analyze env1 cache ev1 t1).cache (cacheKey ev1) = some t1 ∧
    (∀ kv ∈ (analyze env1 cache ev1 t1).cache, t1 - kv.2 < 2 * CACHE_TTL) ∧
    (t2 - t1 < CACHE_TTL →
      (analyze env2 (analyze env1 cache ev1 t1).cache ev2 t2).decision.confidence_score = 0 ∧
      (analyze env2 (analyze env1 cache ev1 t1).cache ev2 t2).llmCalls = 0 ∧
      (analyze env2 (analyze env1 cache ev1 t1).cache ev2 t2).cache =
        (analyze env1 cache ev1 t1).cache) ∧
    (CACHE_TTL < t2 - t1 →
      0 < (analyze env2 (analyze env1 cache ev1 t1).cache ev2 t2).llmCalls) := by
  have hr1 := analyze_miss env1 cache ev1 t1 hig1 hmiss
  have hcache1 : (analyze env1 cache ev1 t1).cache =
      cachePurge (cacheInsert cache (cacheKey ev1) t1) t1 CACHE_TTL := by
    rw [hr1, analyzePipeline_cache]
  have hlook : cacheLookup (analyze env1 cache ev1 t1).cache (cacheKey ev1) =
      some t1 := by
    rw [hcache1]
    apply cacheLookup_filter _ _ _ _ (cacheLookup_insert cache (cacheKey ev1) t1)
    simp only [sub_self, decide_eq_true_eq]
    norm_num [CACHE_TTL]
  refine ⟨?_, hlook, ?_, ?_, ?_⟩
  · rw [hr1]
    have := analyzePipeline_calls env1
      (cachePurge (cacheInsert cache (cacheKey ev1) t1) t1 CACHE_TTL) ev1
    omega
  · intro kv hm
    rw [hcache1] at hm
    have h2 := (List.mem_filter.mp hm).2
    have h3 := of_decide_eq_true h2
    calc t1 - kv.2 < CACHE_TTL * 2 := h3
      _ = 2 * CACHE_TTL := by ring
  · intro ht
    have hl2 : cacheLookup (analyze env1 cache ev1 t1).cache (cacheKey ev2) =
        some t1 := by rw [hkey]; exact hlook
    have hhit := analyze_hit env2 (analyze env1 cache ev1 t1).cache ev2 t2 t1
      hig2 hl2 ht
    rw [hhit]
    exact ⟨rfl, rfl, rfl⟩
  · intro ht
    have hl2 : cacheLookup (analyze env1 cache ev1 t1).cache (cacheKey ev2) =
        some t1 := by rw [hkey]; exact hlook
    have hm2 : ∀ lp, cacheLookup (analyze env1 cache ev1 t1).cache
        (cacheKey ev2) = some lp → CACHE_TTL ≤ t2 - lp := by
      intro lp hlp
      rw [hl2] at hlp
      injection hlp with he
      subst he
      linarith
    rw [analyze_miss env2 _ ev2 t2 hig2 hm2]
    have := analyzePipeline_calls env2
      (cachePurge (cacheInsert (analyze env1 cache ev1 t1).cache
        (cacheKey ev2) t2) t2 CACHE_TTL) ev2
    omega

/-- Concrete dedup run: the checkout alert processed at `t = 0` and again
at `t = 100` hits the window (no LLM call); reprocessed at `t = 400` it
runs the pipeline again. -/
theorem dedup_window_witness :
    0 < (analyze exEnvAllFail [] exEvent 0).llmCalls ∧
    (analyze exEnvAllFail (analyze exEnvAllFail [] exEvent 0).cache
      exEvent 100).llmCalls = 0 ∧
    0 < (analyze exEnvAllFail (analyze exEnvAllFail [] exEvent 0).cache
      exEvent 400).llmCalls := by
  have h := dedup_window exEnvAllFail exEnvAllFail [] exEvent exEvent 0 100
    (by decide) (by decide) rfl
    (by intro lp hlp; simp [cacheLookup] at hlp)
  have h400 := dedup_window exEnvAllFail exEnvAllFail [] exEvent exEvent 0 400
    (by decide) (by decide) rfl
    (by intro lp hlp; simp [cacheLookup] at hlp)
  exact ⟨h.1, (h.2.2.2.1 (by norm_num [CACHE_TTL])).2.1,
    h400.2.2.2.2 (by norm_num [CACHE_TTL])⟩

lemma validateCommands_sound (jl : List Json) :
    ∀ v, validateCommands jl = .ok v → ∀ c ∈ v, startsAllowed c = true := by
  induction jl with
  | nil =>
    intro v h c hc
    injection h with hv
    subst hv
    simp at hc
  | cons j rest ih =>
    intro v h c hc
    cases j with
    | str s =>
      unfold validateCommands at h
      rcases hr : validateCommands rest with e | v0 <;> rw [hr] at h
      · exact Except.noConfusion h
      · dsimp only at h
        by_cases hs : startsAllowed (pyStrip s) = true
        · rw [if_pos hs] at h
          injection h with hv
          subst hv
          rcases List.mem_cons.mp hc with h1 | h1
          · subst h1; exact hs
          · exact ih v0 hr c h1
        · rw [if_neg hs] at h
          injection h with hv
          subst hv
          exact ih v0 hr c hc
    | null => exact Except.noConfusion h
    | bool b => exact Except.noConfusion h
    | num q => exact Except.noConfusion h
    | arr l => exact Except.noConfusion h
    | obj o => exact Except.noConfusion h

lemma validateCommands_length (jl : List Json) :
    ∀ v, validateCommands jl = .ok v → v.length ≤ jl.length := by
  induction jl with
  | nil =>
    intro v h
    injection h with hv
    subst hv
    exact le_refl 0
  | cons j rest ih =>
    intro v h
    cases j with
    | str s =>
      unfold validateCommands at h
      rcases hr : validateCommands rest with e | v0 <;> rw [hr] at h
      · exact Except.noConfusion h
      · dsimp only at h
        by_cases hs : startsAllowed (pyStrip s) = true
        · rw [if_pos hs] at h
          injection h with hv
          subst hv
          simpa using Nat.succ_le_succ (ih v0 hr)
        · rw [if_neg hs] at h
          injection h with hv
          subst hv
          exact le_trans (ih v0 hr) (Nat.le_succ _)
    | null => exact Except.noConfusion h
    | bool b => exact Except.noConfusion h
    | num q => exact Except.noConfusion h
    | arr l => exact Except.noConfusion h
    | obj o => exact Except.noConfusion h

lemma commandsOfData_length (j : Json) (v : List Str)
    (h : commandsOfData j = .ok v) : v.length ≤ 5 := by
  cases j with
  | obj fields =>
    unfold commandsOfData at h
    dsimp only at h
    rcases hg : objGetD fields (("commands").data) (Json.arr []) with
      _ | b | q | s | l | o <;> rw [hg] at h
    · exact Except.noConfusion h
    · exact Except.noConfusion h
    · exact Except.noConfusion h
    · injection h with hv
      subst hv
      simp
    · have h1 := validateCommands_length (l.take 5) v h
      calc v.length ≤ (l.take 5).length := h1
        _ ≤ 5 := by
          rw [List.length_take]
          exact min_le_left 5 l.length
    · exact Except.noConfusion h
  | null => exact Except.noConfusion h
  | bool b => exact Except.noConfusion h
  | num q => exact Except.noConfusion h
  | str s => exact Except.noConfusion h
  | arr l => exact Except.noConfusion h

lemma generateFallbackCommands_length (ns : Str) (resources : Resources)
    (matching : Matching) :
    (generateFallbackCommands ns resources matching).length ≤ 5 := by
  unfold generateFallbackCommands
  rw [List.length_take]
  exact min_le_left 5 _

lemma getDiagnosticCommands_length (gen : Except Str Str) (ns : Str)
    (resources : Resources) (matching : Matching) :
    (getDiagnosticCommands gen ns resources matching).length ≤ 5 := by
  unfold getDiagnosticCommands
  rcases gen with e | text
  · exact generateFallbackCommands_length ns resources matching
  · dsimp only
    rcases hc : commandsOfData (extractJson text) with e2 | v
    · exact generateFallbackCommands_length ns resources matching
    · dsimp only
      by_cases hv : v.isEmpty = true
      · rw [if_pos hv]
        exact generateFallbackCommands_length ns resources matching
      · rw [if_neg hv]
        exact commandsOfData_length (extractJson text) v hc

/-- Claim C2: the whitelist is enforced twice — during planning
validation (any surviving command starts with a whitelisted prefix) and
again by `_run_diagnostics`, whose executed set is exactly the
whitelist-filtered plan; consequently a non-whitelisted command such as
`kubectl delete pod x` never reaches the execution boundary, and at most
5 commands are executed per event. -/
theorem whitelist_enforcement (gen : Except Str Str) (ns : Str)
    (resources : Resources) (matching : Matching) :
    (∀ cmds, executedCommands cmds =
      cmds.filter fun c => startsAllowed (pyStrip c)) ∧
    (∀ jl v, validateCommands jl = Except.ok v →
      ∀ c ∈ v, startsAllowed c = true) ∧
    (∀ c ∈ executedCommands (getDiagnosticCommands gen ns resources matching),
      startsAllowed (pyStrip c) = true) ∧
    (executedCommands (getDiagnosticCommands gen ns resources matching)).length ≤ 5 ∧
    ("kubectl delete pod x").data ∉
      executedCommands (getDiagnosticCommands gen ns resources matching) := by
  refine ⟨fun _ => rfl, validateCommands_sound, ?_, ?_, ?_⟩
  · intro c hc
    exact (List.mem_filter.mp hc).2
  · exact le_trans (List.length_filter_le _ _)
      (getDiagnosticCommands_length gen ns resources matching)
  · intro hmem
    have h1 := (List.mem_filter.mp hmem).2
    have h2 : startsAllowed (pyStrip (("kubectl delete pod x").data)) = false := by
      decide
    rw [h2] at h1
    exact Bool.noConfusion h1

/-- Concrete whitelist run: from a plan proposing one read-only and one
destructive command, only the read-only command is executed. -/
theorem whitelist_enforcement_witness :
    ("kubectl delete pod x").data ∉
      executedCommands (getDiagnosticCommands exGenDelete (("d").data)
        ⟨[], [], [], []⟩ ⟨[], []⟩) ∧
    startsAllowed (pyStrip (("kubectl get pods -n d").data)) = true := by
  have hex : executedCommands (getDiagnosticCommands exGenDelete (("d").data)
      ⟨[], [], [], []⟩ ⟨[], []⟩) = [("kubectl get pods -n d").data] := by
    with_unfolding_all rfl
  refine ⟨(whitelist_enforcement exGenDelete (("d").data)
    ⟨[], [], [], []⟩ ⟨[], []⟩).2.2.2.2, ?_⟩
  exact (whitelist_enforcement exGenDelete (("d").data)
    ⟨[], [], [], []⟩ ⟨[], []⟩).2.2.1 (("kubectl get pods -n d").data)
    (by rw [hex]; simp)

/-- Counterexample to claim C3 as stated: on the successfully parsed
path the code copies the model-supplied confidence without clamping, so
an out-of-range score (here `2.0`) flows into the Decision unchanged —
outside `[0,1]`. -/
theorem decision_confidence_counterexample :
    (analyze exEnvBadConf [] exEvent 0).decision.confidence_score = 2 ∧
    ¬((analyze exEnvBadConf [] exEvent 0).decision.confidence_score ≤ 1) := by
  have h : (analyze exEnvBadConf [] exEvent 0).decision.confidence_score = 2 := by
    with_unfolding_all rfl
  refine ⟨h, ?_⟩
  rw [h]
  norm_num

/-- Claim C3, amended: on the ignored, deduplicated, parse-failure and
fallback paths the Decision has `confidence_score = 0` (inside `[0,1]`);
on the successfully parsed path the confidence equals the value
`float(data.get("confidence_score", 0.5))` taken verbatim from the model
output (default `0.5`), so it lies in `[0,1]` exactly when that supplied
value does — the code does not clamp it. -/
theorem decision_confidence_paths :
    (∀ ev, (ignoredDecision ev).confidence_score = 0) ∧
    (∀ ev, (cachedDecision ev).confidence_score = 0) ∧
    (∀ ev m, (fallbackDecision ev m).confidence_score = 0) ∧
    (∀ ev raw data d, data.truthy = false →
      decisionOfData ev raw data = .ok d → d.confidence_score = 0) ∧
    (∀ ev raw fields d,
      decisionOfData ev raw (Json.obj fields) = .ok d →
      (Json.obj fields).truthy = true →
      pyFloat (objGetD fields (("confidence_score").data) (Json.num (1/2))) =
        .ok d.confidence_score) := by
  refine ⟨fun _ => rfl, fun _ => rfl, fun _ _ => rfl, ?_, ?_⟩
  · intro ev raw data d hfalsy h
    unfold decisionOfData at h
    rw [if_neg (by simp [hfalsy])] at h
    injection h with hv
    subst hv
    rfl
  · intro ev raw fields d h htr
    unfold decisionOfData at h
    rw [if_pos htr] at h
    dsimp only at h
    rcases han : objGetD fields (("analysis").data)
        (Json.str (("Analysis completed.").data)) with _ | b | q | atext | l | o <;>
      rw [han] at h <;> dsimp only at h
    · exact Except.noConfusion h
    · exact Except.noConfusion h
    · exact Except.noConfusion h
    · rcases hpf : pyFloat (objGetD fields (("confidence_score").data)
          (Json.num (1/2))) with e | conf <;> rw [hpf] at h <;> dsimp only at h
      · exact Except.noConfusion h
      · rcases hpa : proposedActionsOf
            (objGetD fields (("proposed_actions").data) (Json.arr [])) with
          e2 | acts <;> rw [hpa] at h <;> dsimp only at h
        · exact Except.noConfusion h
        · injection h with h2
          subst h2
          rfl
    · exact Except.noConfusion h
    · exact Except.noConfusion h

/-- Concrete parsed-path run for the amended claim: a supplied
confidence of `0.75` is copied verbatim into the Decision. -/
theorem decision_confidence_paths_witness :
    pyFloat (objGetD [((("confidence_score").data), Json.num (3/4)),
      ((("analysis").data), Json.str (("ok").data))] (("confidence_score").data)
      (Json.num (1/2))) =
      .ok ((⟨("e1").data, ("ok").data, 3/4, []⟩ : Decision).confidence_score) :=
  decision_confidence_paths.2.2.2.2 exEvent []
    [((("confidence_score").data), Json.num (3/4)),
     ((("analysis").data), Json.str (("ok").data))]
    (⟨("e1").data, ("ok").data, 3/4, []⟩ : Decision)
    (by with_unfolding_all rfl) (by rfl)

/-- Counterexample to claim C9 as stated: when no resource matches the
service but discovery found a pod, the fallback plan contains describe
and the events listing but no logs command — the code tails logs only
for a matched pod, not for a merely discovered one. -/
theorem fallback_plan_counterexample :
    generateFallbackCommands (("default").data) ⟨[("p1").data], [], [], []⟩
      ⟨[], []⟩ =
      [("kubectl describe pod p1 -n default").data,
       ("kubectl get events -n default --sort-by=.lastTimestamp | tail -20").data] ∧
    ((generateFallbackCommands (("default").data) ⟨[("p1").data], [], [], []⟩
      ⟨[], []⟩).all fun c => !(("kubectl logs").data.isPrefixOf c)) = true := by
  constructor
  · with_unfolding_all rfl
  · decide

/-- Claim C9, amended: whenever zero proposed commands survive
validation (LLM failure, empty or malformed list, or all entries
rejected), the plan is the deterministic minimal fallback; that fallback
is describe + tail-logs + events for the first matched pod, describe +
events (no logs) for the first discovered pod when none match, and the
events listing alone when no pod exists. -/
theorem fallback_plan_characterization (gen : Except Str Str) (ns : Str)
    (resources : Resources) (matching : Matching) :
    (isErrE gen = true → getDiagnosticCommands gen ns resources matching =
      generateFallbackCommands ns resources matching) ∧
    (∀ text, gen = .ok text →
      (commandsOfData (extractJson text) = .error () ∨
        commandsOfData (extractJson text) = .ok []) →
      getDiagnosticCommands gen ns resources matching =
        generateFallbackCommands ns resources matching) ∧
    (∀ pod rest, matching.pods = pod :: rest →
      generateFallbackCommands ns resources matching =
        [("kubectl describe pod ").data ++ pod ++ (" -n ").data ++ ns,
         ("kubectl logs ").data ++ pod ++ (" -n ").data ++ ns ++ (" --tail=100").data,
         ("kubectl get events -n ").data ++ ns ++
           (" --sort-by=.lastTimestamp | tail -20").data]) ∧
    (∀ pod rest, matching.pods = [] → resources.pods = pod :: rest →
      generateFallbackCommands ns resources matching =
        [("kubectl describe pod ").data ++ pod ++ (" -n ").data ++ ns,
         ("kubectl get events -n ").data ++ ns ++
           (" --sort-by=.lastTimestamp | tail -20").data]) ∧
    (matching.pods = [] → resources.pods = [] →
      generateFallbackCommands ns resources matching =
        [("kubectl get events -n ").data ++ ns ++
          (" --sort-by=.lastTimestamp | tail -20").data]) := by
  refine ⟨?_, ?_, ?_, ?_, ?_⟩
  · intro hge
    rcases gen with e | t
    · rfl
    · simp [isErrE] at hge
  · intro text hgt hcd
    subst hgt
    unfold getDiagnosticCommands
    dsimp only
    rcases hcd with hcd | hcd <;> rw [hcd] <;> rfl
  · intro pod rest hm
    unfold generateFallbackCommands
    rw [hm]
    rfl
  · intro pod rest hm hr
    unfold generateFallbackCommands
    rw [hm, hr]
    rfl
  · intro hm hr
    unfold generateFallbackCommands
    rw [hm, hr]
    rfl

/-- Concrete fallback run: a failing planner call on the checkout alert
yields exactly the deterministic fallback plan. -/
theorem fallback_plan_characterization_witness :
    getDiagnosticCommands (Except.error (("down").data)) (("default").data)
      ⟨[("p1").data], [], [], []⟩ ⟨[], []⟩ =
      generateFallbackCommands (("default").data)
        ⟨[("p1").data], [], [], []⟩ ⟨[], []⟩ :=
  (fallback_plan_characterization (Except.error (("down").data))
    (("default").data) ⟨[("p1").data], [], [], []⟩ ⟨[], []⟩).1 rfl

end IRO
